import Mathlib

/-!
Verification development for the lighthouse repository analysis backend.

Shallow embedding of the analysis pipeline: the tree builder
(tree-builder.service.ts), the metrics service (metrics.service.ts), the file
scanner (file-scanner.service.ts), the parser service and language parsers
(parser.service.ts, typescript.parser.ts, python.parser.ts), the storage
repositories (analysis.repository.ts, dependency.repository.ts), the analyses
route handlers (analysis.routes.ts) and the analysis worker
(analysis.worker.ts).  External effects (filesystem, database, remote API,
AST library) are modelled by passing their outcomes as explicit inputs;
machine recursion over directory trees is modelled with an explicit fuel
parameter (fuel larger than the tree depth reproduces the source behaviour,
and every universal theorem below is quantified over all fuel values).
-/

namespace Lighthouse

/-- Status values of an analysis job / AnalysisRecord. -/
inductive JobStatus where
  | queued
  | processing
  | completed
  | failed
  | cancelled
deriving DecidableEq

/-- Per-file metadata assembled by FileScannerService.getFileMetadata together
with the linesOfCode count merged in by the tree builder.  The lastModified
timestamp is omitted (no claim concerns it). -/
structure FileMetadata where
  language : String
  extension : String
  size : Nat
  linesOfCode : Nat
  isTest : Bool
  isConfig : Bool
deriving DecidableEq

/-- Tag of a FileTreeNode: the type field with values file or directory. -/
inductive NodeType where
  | file
  | directory
deriving DecidableEq

/-- FileTreeNode from types/models: name, type tag, optional metadata (file
nodes), optional children list (directory nodes; a skipped directory keeps the
field undefined, modelled as none).  The id, path and relativePath fields are
omitted: no claim concerns them (ids are fresh random strings, paths are the
join of the names on the root path). -/
inductive FileTreeNode where
  | node (name : String) (type : NodeType) (metadata : Option FileMetadata)
      (children : Option (List FileTreeNode)) : FileTreeNode

/-- Projection: display name of a node. -/
def FileTreeNode.name : FileTreeNode → String
  | .node n _ _ _ => n

/-- Projection: the type tag of a node. -/
def FileTreeNode.type : FileTreeNode → NodeType
  | .node _ t _ _ => t

/-- Projection: metadata of a node. -/
def FileTreeNode.metadata : FileTreeNode → Option FileMetadata
  | .node _ _ md _ => md

/-- Projection: children of a node (none when the field is absent). -/
def FileTreeNode.children : FileTreeNode → Option (List FileTreeNode)
  | .node _ _ _ cs => cs

/-! ## Model of the JS default-locale string comparison

The comparator in TreeBuilderService.buildTreeRecursive sorts sibling names
with a.name.localeCompare(b.name).  localeCompare under the default locale
(ICU collation) compares ASCII strings primarily case-insensitively (base
letters), breaking ties at tertiary strength where lowercase sorts before
uppercase.  We model it for ASCII data: primary key = lowercased code point,
tertiary key = case bit. -/

/-- Three-way comparison of two key sequences (lexicographic). -/
def keyListCompare : List Nat → List Nat → Ordering
  | [], [] => .eq
  | [], _ :: _ => .lt
  | _ :: _, [] => .gt
  | a :: as, b :: bs =>
    if a < b then .lt
    else if b < a then .gt
    else keyListCompare as bs

/-- Primary collation key of a character: its lowercased code point. -/
def primaryKey (c : Char) : Nat := c.toLower.toNat

/-- Tertiary collation key of a character: lowercase before uppercase. -/
def tertiaryKey (c : Char) : Nat := if c.isUpper then 1 else 0

/-- Combined collation: primary strength, then tertiary strength. -/
def collate (a b : String) : Ordering :=
  (keyListCompare (a.toList.map primaryKey) (b.toList.map primaryKey)).then
    (keyListCompare (a.toList.map tertiaryKey) (b.toList.map tertiaryKey))

/-- Model of a.localeCompare(b): a negative, zero or positive number. -/
def localeCompare (a b : String) : Int :=
  match collate a b with
  | .lt => -1
  | .eq => 0
  | .gt => 1

/-- The comparator passed to children.sort in buildTreeRecursive: equal types
compare by name, otherwise directories come first. -/
def childCompare (a b : FileTreeNode) : Int :=
  if a.type = b.type then localeCompare a.name b.name
  else if a.type = NodeType.directory then -1 else 1

/-- Non-strict order induced by the comparator (cmp a b is not positive). -/
def childLe (a b : FileTreeNode) : Bool := childCompare a b ≤ 0

/-- Insert into a sorted list, keeping earlier-inserted equal elements first
(stability, as guaranteed by Array.prototype.sort). -/
def insertBy {α : Type} (le : α → α → Bool) (x : α) : List α → List α
  | [] => [x]
  | y :: ys => if le x y then x :: y :: ys else y :: insertBy le x ys

/-- Stable sort by a boolean comparator; extensionally models
Array.prototype.sort with a consistent comparator. -/
def sortBy {α : Type} (le : α → α → Bool) : List α → List α
  | [] => []
  | x :: xs => insertBy le x (sortBy le xs)

/-- The sort applied to the children of every directory node. -/
def childrenSort (cs : List FileTreeNode) : List FileTreeNode := sortBy childLe cs

/-! ## TreeBuilderService -/

/-- The directory skip list of TreeBuilderService.shouldSkipDirectory. -/
def skipDirs : List String :=
  ["node_modules", ".git", "dist", "build", "coverage", ".next", ".nuxt",
   "out", "vendor", "__pycache__", ".venv", "venv", "target", "bin", "obj",
   ".idea", ".vscode"]

/-- TreeBuilderService.shouldSkipDirectory. -/
def shouldSkipDirectory (dirName : String) : Bool := skipDirs.contains dirName

/-- Options accepted by buildFileTree.  Optional fields model the JS
undefined value as none; the truthiness tests of the source are reproduced
below.  The excludePatterns field is accepted but never read by
buildTreeRecursive (exactly as in the source). -/
structure BuildOptions where
  excludePatterns : Option (List String)
  maxFileSizeKB : Option Nat
  includeTests : Option Bool
deriving DecidableEq

/-- JS truthiness of an optional boolean (undefined and false are falsy). -/
def optTruthy : Option Bool → Bool
  | some b => b
  | none => false

/-- Abstract working-copy filesystem fed to the tree builder.  A file entry
carries the metadata getFileMetadata would produce (none when stat fails and
getFileMetadata returns null); a broken entry models an entry whose
processing throws (the per-entry catch in the source logs and skips it). -/
inductive FsEntry where
  | file (name : String) (metadata : Option FileMetadata) : FsEntry
  | dir (name : String) (entries : List FsEntry) : FsEntry
  | broken (name : String) : FsEntry

/-- Filter applied to each recursively built child before it is pushed:
file children are dropped when their size exceeds maxFileSizeKB (sizeKB =
size / 1024 compared with real division, only when metadata is present and
maxFileSizeKB is truthy) or when includeTests is falsy and the file is a
test file.  Directory children are always kept. -/
def keepChild (options : BuildOptions) (childNode : FileTreeNode) : Bool :=
  match childNode.type with
  | NodeType.directory => true
  | NodeType.file =>
    let sizeDrop : Bool :=
      match childNode.metadata, options.maxFileSizeKB with
      | some md, some maxKB =>
        if maxKB = 0 then false else decide (md.size > 1024 * maxKB)
      | _, _ => false
    let testDrop : Bool :=
      (!optTruthy options.includeTests) &&
        (match childNode.metadata with
         | some md => md.isTest
         | none => false)
    !sizeDrop && !testDrop

/-- TreeBuilderService.buildTreeRecursive.  A file becomes a file node with
its metadata; a directory in the skip list is returned at once without a
children field; otherwise each entry is processed (entries whose processing
throws are skipped by the catch), file children are filtered by keepChild,
and the surviving children are sorted with the comparator.  The fuel
argument bounds the recursion depth; none models a thrown error (fuel 0
never occurs when fuel exceeds the tree depth). -/
def buildTreeRecursive (options : BuildOptions) : Nat → FsEntry → Option FileTreeNode
  | 0, _ => none
  | _ + 1, FsEntry.broken _ => none
  | _ + 1, FsEntry.file name md => some (FileTreeNode.node name NodeType.file md none)
  | fuel + 1, FsEntry.dir name es =>
    if shouldSkipDirectory name then
      some (FileTreeNode.node name NodeType.directory none none)
    else
      some (FileTreeNode.node name NodeType.directory none
        (some (childrenSort (es.foldr
          (fun entry acc =>
            match buildTreeRecursive options fuel entry with
            | none => acc
            | some childNode =>
              if keepChild options childNode then childNode :: acc else acc)
          []))))

/-- TreeBuilderService.buildFileTree: builds the tree at the root and
re-wraps the result into a fresh root directory node carrying the children
of the built tree. -/
def buildFileTree (options : BuildOptions) (fuel : Nat) (rootName : String)
    (entries : List FsEntry) : FileTreeNode :=
  FileTreeNode.node rootName NodeType.directory none
    (match buildTreeRecursive options fuel (FsEntry.dir rootName entries) with
     | some t => t.children
     | none => none)

/-- Occurrence of a node inside a tree: the tree itself, or recursively a
member of some children list. -/
inductive InTree : FileTreeNode → FileTreeNode → Prop where
  | refl (t : FileTreeNode) : InTree t t
  | step {n c t : FileTreeNode} {cs : List FileTreeNode} :
      t.children = some cs → c ∈ cs → InTree n c → InTree n t

/-- Case-insensitive name order, as asserted by the specification for the
names within each sibling group. -/
def ciLe (a b : String) : Prop :=
  keyListCompare (a.toList.map primaryKey) (b.toList.map primaryKey) ≠ .gt

/-- Sibling order asserted by the specification: no file before a directory,
and names within a same-type group in case-insensitive ascending order. -/
def siblingOrdered (a b : FileTreeNode) : Prop :=
  (a.type = NodeType.file → b.type = NodeType.file) ∧
    (a.type = b.type → ciLe a.name b.name)

/-- The children list of every directory places directories before files and
sorts each group case-insensitively by name. -/
def ChildrenOrdered (cs : List FileTreeNode) : Prop := cs.Pairwise siblingOrdered

/-- Invariant: every children list anywhere in the tree is ordered. -/
inductive WellOrdered : FileTreeNode → Prop where
  | mk {name : String} {ty : NodeType} {md : Option FileMetadata}
      {ocs : Option (List FileTreeNode)} :
      (∀ cs, ocs = some cs → ChildrenOrdered cs) →
      (∀ cs, ocs = some cs → ∀ c ∈ cs, WellOrdered c) →
      WellOrdered (FileTreeNode.node name ty md ocs)

/-! ## MetricsService -/

/-- Size sub-record of the statistics. -/
structure SizeBreakdownStats where
  totalSize : Nat
  averageFileSize : Nat
deriving DecidableEq

/-- FileTreeStatistics as built by MetricsService.calculateMetrics.  The
languageBreakdown object is modelled as an association list in insertion
order (JS object keys keep insertion order). -/
structure FileTreeStatistics where
  totalFiles : Nat
  totalDirectories : Nat
  totalLines : Nat
  languageBreakdown : List (String × Nat)
  sizeBreakdown : SizeBreakdownStats
deriving DecidableEq

/-- Increment of a language counter: a missing key is created at 0 and then
incremented (appended at the end, as JS object insertion does). -/
def bumpLanguage (m : List (String × Nat)) (lang : String) : List (String × Nat) :=
  if m.any (fun p => p.1 = lang) then
    m.map (fun p => if p.1 = lang then (p.1, p.2 + 1) else p)
  else m ++ [(lang, 1)]

/-- The all-zero statistics record calculateMetrics starts from. -/
def initialStats : FileTreeStatistics :=
  { totalFiles := 0, totalDirectories := 0, totalLines := 0,
    languageBreakdown := [], sizeBreakdown := { totalSize := 0, averageFileSize := 0 } }

/-- MetricsService.traverseAndCount: directories bump totalDirectories and
recurse into their children when the field is present; files bump totalFiles
and, when metadata is present, accumulate lines, language counts and size. -/
def traverseAndCount : Nat → FileTreeNode → FileTreeStatistics → FileTreeStatistics
  | 0, _, stats => stats
  | fuel + 1, FileTreeNode.node _ ty md ocs, stats =>
    match ty with
    | NodeType.directory =>
      let stats := { stats with totalDirectories := stats.totalDirectories + 1 }
      match ocs with
      | some cs => cs.foldl (fun s c => traverseAndCount fuel c s) stats
      | none => stats
    | NodeType.file =>
      let stats := { stats with totalFiles := stats.totalFiles + 1 }
      match md with
      | some m =>
        { stats with
          totalLines := stats.totalLines + m.linesOfCode,
          languageBreakdown := bumpLanguage stats.languageBreakdown m.language,
          sizeBreakdown := { stats.sizeBreakdown with
            totalSize := stats.sizeBreakdown.totalSize + m.size } }
      | none => stats

/-- Math.round(num / den) for a nonnegative finite quotient (den nonzero):
floor of the quotient plus one half. -/
def mathRound (num den : Nat) : Nat := (2 * num + den) / (2 * den)

/-- MetricsService.calculateMetrics: traverse, then fill averageFileSize only
when totalFiles is positive (otherwise the initial 0 stands). -/
def calculateMetrics (fuel : Nat) (tree : FileTreeNode) : FileTreeStatistics :=
  let stats := traverseAndCount fuel tree initialStats
  if stats.totalFiles > 0 then
    { stats with sizeBreakdown := { stats.sizeBreakdown with
        averageFileSize := mathRound stats.sizeBreakdown.totalSize stats.totalFiles } }
  else stats

/-- The averageFileSize computed inline by the GET /analysis/:id/tree route:
Math.round(Number(totalSize) / totalFiles) with NO zero check.  When
totalFiles is zero the JS division yields NaN or Infinity (a non-finite
number, serialized to null by res.json), modelled as none. -/
def routeAverageFileSize (totalSize totalFiles : Nat) : Option Nat :=
  if totalFiles = 0 then none else some (mathRound totalSize totalFiles)

/-! ## FileScannerService.countLines -/

/-- Model of content.split(newline) on the character list of the content:
splitting on each newline character, as the single-character JS split does. -/
def splitNl : List Char → List (List Char)
  | [] => [[]]
  | c :: rest =>
    if c = '\n' then [] :: splitNl rest
    else
      match splitNl rest with
      | [] => [[c]]
      | s :: ss => (c :: s) :: ss

/-- FileScannerService.countLines: the length of content.split(newline), or
zero when the read throws.  The read outcome is the input (none = error). -/
def countLines (readResult : Option String) : Nat :=
  match readResult with
  | none => 0
  | some content => (splitNl content.toList).length

/-! ## Parser service and language parsers -/

/-- Import specifier: imported name plus optional local alias (the alias
field; renamed aliasName because alias is a Lean keyword). -/
structure ImportSpecifier where
  name : String
  aliasName : Option String
deriving DecidableEq

/-- ImportStatement from types/models. -/
structure ImportStatement where
  source : String
  specifiers : List ImportSpecifier
  isTypeOnly : Bool
deriving DecidableEq

/-- ExportStatement from types/models; the type field holds one of the
literals named, default or all. -/
structure ExportStatement where
  name : String
  type : String
  source : Option String
deriving DecidableEq

/-- FunctionInfo from types/models, projected to the fields the claims
concern: name, async flag, 1-based line number and modifier list.  The
parameter list, return type, character offsets and docstring are omitted
(no claim concerns them). -/
structure FunctionInfo where
  name : String
  isAsync : Bool
  line : Nat
  modifiers : List String
deriving DecidableEq

/-- ClassInfo from types/models, projected to name, 1-based line number and
methods (properties, superClass, decorators and docstring omitted: no claim
concerns them). -/
structure ClassInfo where
  name : String
  line : Nat
  methods : List FunctionInfo
deriving DecidableEq

/-- ParsedFile from types/models.  The interfaces, types, constants and
enums fields are always the empty array in every parser of the source and
are omitted here. -/
structure ParsedFile where
  path : String
  language : String
  imports : List ImportStatement
  exports : List ExportStatement
  functions : List FunctionInfo
  classes : List ClassInfo
deriving DecidableEq

/-- The four extraction lists a successful parse produces. -/
structure ParsedContents where
  imports : List ImportStatement
  exports : List ExportStatement
  functions : List FunctionInfo
  classes : List ClassInfo
deriving DecidableEq

/-- The ParsedFile with empty substructures returned by the catch branch of
the language parsers. -/
def emptyParsed (path language : String) : ParsedFile :=
  { path := path, language := language,
    imports := [], exports := [], functions := [], classes := [] }

/-- Input model of one file offered to the parser pipeline: the outcomes of
the external effects (fs.stat, fs.readFile, language detection, and the
parse plus extraction itself, which for TypeScript runs the external
@typescript-eslint parser). -/
structure ParseFileInput where
  path : String
  statSize : Except String Nat
  readContent : Except String String
  language : String
  parseOutcome : Except String ParsedContents

/-- Common shape of TypeScriptParser.parseFile, JavaScriptParser.parseFile
and PythonParser.parseFile: the readFile await sits OUTSIDE the try block,
so a read error propagates to the caller; the parse and extraction run
inside try, and the catch branch returns a ParsedFile with empty
substructures instead of rethrowing. -/
def languageParserParseFile (language : String) (f : ParseFileInput) :
    Except String ParsedFile :=
  match f.readContent with
  | .error e => .error e
  | .ok _ =>
    match f.parseOutcome with
    | .ok r =>
      .ok { path := f.path, language := language, imports := r.imports,
            exports := r.exports, functions := r.functions, classes := r.classes }
    | .error _ => .ok (emptyParsed f.path language)

/-- LanguageDetector.isSupportedForParsing. -/
def isSupportedForParsing (language : String) : Bool :=
  ["typescript", "javascript", "python"].contains language

/-- Options of ParserService.parseFile. -/
structure ParserOptions where
  skipLargeFiles : Bool
  maxFileSize : Option Nat
deriving DecidableEq

/-- JS expression optional-number OR default (undefined and 0 give the
default). -/
def jsOrNat : Option Nat → Nat → Nat
  | some n, d => if n = 0 then d else n
  | none, d => d

/-- The language routing and surrounding try of ParserService.parseFile:
unsupported languages return null; the switch dispatches typescript,
javascript and python to the corresponding parser (all three share the
languageParserParseFile shape; the unreachable default returns null); any
error thrown by the routed parser is caught and turned into null. -/
def routeAndCatch (f : ParseFileInput) : Except String (Option ParsedFile) :=
  if isSupportedForParsing f.language then
    match languageParserParseFile f.language f with
    | .ok pf => .ok (some pf)
    | .error _ => .ok none
  else .ok none

/-- ParserService.parseFile: optional size gate (stat errors and files above
maxFileSize OR the 1 MiB default return null), then detection gate and
routed parse with catch. -/
def ParserService.parseFile (options : ParserOptions) (f : ParseFileInput) :
    Except String (Option ParsedFile) :=
  if options.skipLargeFiles then
    match f.statSize with
    | .error _ => .ok none
    | .ok size =>
      if size > jsOrNat options.maxFileSize 1048576 then .ok none
      else routeAndCatch f
  else routeAndCatch f

/-- Model of Promise.all over a list of computations: the collected results,
or the first rejection. -/
def promiseAll {A B : Type} (g : A -> Except String B) : List A -> Except String (List B)
  | [] => .ok []
  | a :: as =>
    match g a, promiseAll g as with
    | .ok b, .ok bs => .ok (b :: bs)
    | .error e, _ => .error e
    | .ok _, .error e => .error e

/-- ParserService.parseFilesParallel: Promise.all over parseFile (a rejected
promise would reject the whole batch), then nulls are filtered out. -/
def parseFilesParallel (options : ParserOptions) (files : List ParseFileInput) :
    Except String (List ParsedFile) :=
  match promiseAll (ParserService.parseFile options) files with
  | .ok results => .ok (results.filterMap id)
  | .error e => .error e

/-! ## PythonParser

The Python parser is regex-driven over the whole file content with multiline
anchors, so every match starts at the beginning of a line and (for def and
class headers written on one line, the only forms the claims concern) is
confined to that line.  We model the content as its list of lines and embed
each regex as a single-line matcher.  Character offsets only feed the
line-number computation (prefix newline count plus one), which at line
granularity is the 0-based line index plus one, and the relative comparison
of match positions, which is the comparison of line indices. -/

/-- JS whitespace class restricted to the characters appearing inside a
line (space and tab). -/
def isWsChar (c : Char) : Bool := c = ' ' || c = '\t'

/-- JS word character class (ASCII letters, digits, underscore). -/
def isWordChar (c : Char) : Bool := c.isAlpha || c.isDigit || c = '_'

/-- Strip an exact literal from the front of a character list. -/
def stripLit : List Char → List Char → Option (List Char)
  | [], cs => some cs
  | _ :: _, [] => none
  | t :: ts, c :: cs => if c = t then stripLit ts cs else none

/-- Require at least one whitespace character, then drop the whole run. -/
def stripWs1 : List Char → Option (List Char)
  | c :: rest => if isWsChar c then some (rest.dropWhile isWsChar) else none
  | [] => none

/-- Shared tail of the def regexes after the leading indent group:
(async plus whitespace, optional) def whitespace name, then
optional-whitespace, parenthesised parameter text, optional-whitespace,
optionally an arrow with a nonempty return type, and a colon.  Returns the
captured name and whether the async keyword matched. -/
def matchDefTail (r0 : List Char) : Option (String × Bool) :=
  let asyncSplit : List Char × Bool :=
    match stripLit ("async".toList) r0 with
    | some rest =>
      match stripWs1 rest with
      | some rest2 => (rest2, true)
      | none => (r0, false)
    | none => (r0, false)
  let r1 := asyncSplit.1
  match stripLit ("def".toList) r1 with
  | none => none
  | some r2 =>
    match stripWs1 r2 with
    | none => none
    | some r3 =>
      let nameSplit := r3.span isWordChar
      if nameSplit.1.isEmpty then none
      else
        let r4 := nameSplit.2.dropWhile isWsChar
        match r4 with
        | '(' :: r5 =>
          let paramSplit := r5.span (fun c => c ≠ ')')
          (match paramSplit.2 with
           | ')' :: r6 =>
             let r7 := r6.dropWhile isWsChar
             (match r7 with
              | '-' :: '>' :: r8 =>
                let r9 := r8.dropWhile isWsChar
                let retSplit := r9.span (fun c => c ≠ ':')
                (match retSplit.2, retSplit.1 with
                 | ':' :: _, _ :: _ => some (String.mk nameSplit.1, asyncSplit.2)
                 | _, _ => none)
              | ':' :: _ => some (String.mk nameSplit.1, asyncSplit.2)
              | _ => none)
           | _ => none)
        | _ => none

/-- Single-line model of the method regex of extractMethodsFromClass
(indent group required nonempty).  Returns captured name and async flag. -/
def matchIndentedDef (line : String) : Option (String × Bool) :=
  let indentSplit := line.toList.span isWsChar
  if indentSplit.1.isEmpty then none else matchDefTail indentSplit.2

/-- Single-line model of the class regex of extractClasses: optional indent
group, the class keyword, whitespace, a name, optionally a nonempty
parenthesised base list, then a colon with no whitespace allowed before it.
Returns indent length and captured name. -/
def matchClassLine (line : String) : Option (Nat × String) :=
  let indentSplit := line.toList.span isWsChar
  match stripLit ("class".toList) indentSplit.2 with
  | none => none
  | some r1 =>
    match stripWs1 r1 with
    | none => none
    | some r2 =>
      let nameSplit := r2.span isWordChar
      if nameSplit.1.isEmpty then none
      else
        match nameSplit.2 with
        | '(' :: r3 =>
          let baseSplit := r3.span (fun c => c ≠ ')')
          (match baseSplit.2, baseSplit.1 with
           | ')' :: ':' :: _, _ :: _ =>
             some (indentSplit.1.length, String.mk nameSplit.1)
           | _, _ => none)
        | ':' :: _ => some (indentSplit.1.length, String.mk nameSplit.1)
        | _ => none

/-- Single-line model of the lookahead regex (caret)class whitespace word
used by extractMethodsFromClass to find the next class header. -/
def matchesNextClass (line : String) : Bool :=
  match stripLit ("class".toList) line.toList with
  | none => false
  | some r1 =>
    match stripWs1 r1 with
    | none => false
    | some r2 =>
      match r2 with
      | c :: _ => isWordChar c
      | [] => false

/-- Modifier computation of extractMethodsFromClass: one leading underscore
gives protected, two give private. -/
def pythonMethodModifiers (name : String) : List String :=
  match name.toList with
  | '_' :: '_' :: _ => ["private"]
  | '_' :: _ => ["protected"]
  | _ => []

/-- PythonParser.extractMethodsFromClass.  For every indented def line the
source computes its 1-based line number, keeps it only when it lies after
the class line, and then runs the (intended) alien-method guard: it searches
for the next top-level class header STARTING AFTER the current def match and
skips the def only when that header sits BEFORE the def; at line granularity
the search yields the first matching line index j greater than the def index
i, and the guard condition is j less than i.  (The guard is reproduced
verbatim; see the C7 theorem for its effect.) -/
def extractMethodsFromClass (lines : List String) (classLine : Nat) :
    List FunctionInfo :=
  (List.range lines.length).filterMap (fun i =>
    match matchIndentedDef (lines.getD i "") with
    | none => none
    | some nm =>
      let lineNumber := i + 1
      if lineNumber ≤ classLine then none
      else
        let nextClass := (List.range lines.length).find?
          (fun j => decide (i < j) && matchesNextClass (lines.getD j ""))
        match nextClass with
        | some j =>
          if j < i then none
          else some { name := nm.1, isAsync := nm.2, line := lineNumber,
                      modifiers := pythonMethodModifiers nm.1 }
        | none =>
          some { name := nm.1, isAsync := nm.2, line := lineNumber,
                 modifiers := pythonMethodModifiers nm.1 })

/-- PythonParser.extractClasses: every class header with empty indent (the
nested ones are skipped) yields a ClassInfo whose methods come from
extractMethodsFromClass at the class line number. -/
def extractClasses (lines : List String) : List ClassInfo :=
  (List.range lines.length).filterMap (fun k =>
    match matchClassLine (lines.getD k "") with
    | none => none
    | some im =>
      if im.1 > 0 then none
      else some { name := im.2, line := k + 1,
                  methods := extractMethodsFromClass lines (k + 1) })

/-! ## AnalysisRepository.updateStatus -/

/-- The mutable columns of an Analysis row that updateStatus touches. -/
structure AnalysisRecord where
  status : JobStatus
  error : Option String
  startedAt : Option Nat
  completedAt : Option Nat
deriving DecidableEq

/-- JS truthiness of the optional error string (undefined and the empty
string are falsy). -/
def errTruthy : Option String → Bool
  | some s => s ≠ ""
  | none => false

/-- AnalysisRepository.updateStatus as a pure transition on the record: the
status column is always written; startedAt is written when the new status is
processing and no (truthy) error was passed; otherwise completedAt is
written when the new status is completed or failed; the error column is
written when a truthy error was passed.  Nothing is ever cleared. -/
def updateStatus (now : Nat) (r : AnalysisRecord) (status : JobStatus)
    (err : Option String) : AnalysisRecord :=
  let d1 := { r with status := status }
  let d2 :=
    if status = JobStatus.processing ∧ errTruthy err = false then
      { d1 with startedAt := some now }
    else if status = JobStatus.completed ∨ status = JobStatus.failed then
      { d1 with completedAt := some now }
    else d1
  if errTruthy err then { d2 with error := err } else d2

/-- A freshly created record (AnalysisRepository.create): queued, no error,
no timestamps. -/
def initialRecord : AnalysisRecord :=
  { status := JobStatus.queued, error := none, startedAt := none, completedAt := none }

/-- Apply a sequence of updateStatus calls at increasing clock values. -/
def runUpdates : AnalysisRecord → Nat → List (JobStatus × Option String) → AnalysisRecord
  | r, _, [] => r
  | r, now, c :: cs => runUpdates (updateStatus now r c.1 c.2) (now + 1) cs

/-- The record after a call trace starting from a fresh record. -/
def processTrace (cmds : List (JobStatus × Option String)) : AnalysisRecord :=
  runUpdates initialRecord 1 cmds

/-! ## DependencyRepository.saveParsedFiles -/

/-- A row of the ParsedFile table.  The data column holds the serialized
ParsedFile; since JSON round-trips the value, the serialization is modelled
as the value itself. -/
structure ParsedFileRow where
  analysisId : String
  filePath : String
  language : String
  data : ParsedFile
deriving DecidableEq

/-- Key test of the unique(analysisId, filePath) constraint. -/
def sameKey (a b : ParsedFileRow) : Bool :=
  a.analysisId = b.analysisId && a.filePath = b.filePath

/-- Modelled from the spec: the Prisma schema (not under src/) declares
unique(analysisId, filePath) on the ParsedFile table, so createMany with
skipDuplicates inserts each row whose key is not already present (checked
against the table as extended by earlier rows of the same batch) and skips
the rest. -/
def createManySkipDuplicates (table : List ParsedFileRow)
    (rows : List ParsedFileRow) : List ParsedFileRow :=
  rows.foldl
    (fun t row => if t.any (fun r => sameKey r row) then t else t ++ [row])
    table

/-- DependencyRepository.saveParsedFiles: map each ParsedFile to a row keyed
by (analysisId, file path) and batch-insert with skipDuplicates. -/
def saveParsedFiles (table : List ParsedFileRow) (analysisId : String)
    (parsedFiles : List ParsedFile) : List ParsedFileRow :=
  createManySkipDuplicates table
    (parsedFiles.map (fun f =>
      { analysisId := analysisId, filePath := f.path, language := f.language,
        data := f }))

/-! ## AnalysisRepository.list and the GET /analyses handler -/

/-- Row shape selected by AnalysisRepository.list. -/
structure AnalysisListItem where
  id : String
  repositoryUrl : String
  status : JobStatus
  createdAt : Nat
  completedAt : Option Nat
deriving DecidableEq

/-- AnalysisRepository.list: the outcome of the paged findMany/count query
pair is the input; any thrown error is caught and turned into the empty
page with total 0. -/
def listAnalyses (queryResult : Except String (List AnalysisListItem × Nat)) :
    List AnalysisListItem × Nat :=
  match queryResult with
  | .ok r => r
  | .error _ => ([], 0)

/-- Wire item of the GET /analyses response body. -/
structure AnalysisListItemWire where
  analysis_id : String
  repository_url : String
  status : JobStatus
  created_at : Nat
  completed_at : Option Nat
deriving DecidableEq

/-- Response of the GET /analyses handler. -/
structure ListAnalysesResponse where
  httpStatus : Nat
  analyses : List AnalysisListItemWire
  total : Nat
  page : Nat
deriving DecidableEq

/-- The GET /analyses handler: parseInt-or-default on limit (20) and offset
(0), delegate to listAnalyses, map rows to the wire shape and answer 200
with page = floor(offset / limit) + 1.  The parsed query values are the
inputs (none models NaN from parseInt). -/
def getAnalysesHandler (limitParam offsetParam : Option Nat)
    (queryResult : Except String (List AnalysisListItem × Nat)) :
    ListAnalysesResponse :=
  let limit := jsOrNat limitParam 20
  let offset := jsOrNat offsetParam 0
  let page := listAnalyses queryResult
  { httpStatus := 200,
    analyses := page.1.map (fun a =>
      { analysis_id := a.id, repository_url := a.repositoryUrl,
        status := a.status, created_at := a.createdAt,
        completed_at := a.completedAt }),
    total := page.2,
    page := offset / limit + 1 }

/-! ## AnalysisWorker.processAnalysisJob

The worker drives the pipeline over external effects whose outcomes form
the job environment below.  The record-store writes of the worker are
assumed to succeed (the claims concern the working-copy lifecycle and the
terminal status).  cloneRepository removes its own partial directory before
rethrowing, so a failed clone leaves no working copy. -/

/-- Outcomes of the effectful pipeline steps of one job. -/
structure StepOutcomes where
  urlValid : Bool
  fetchMetadata : Except String Unit
  cloneRepo : Except String Unit
  buildTree : Except String Unit
  saveTree : Except String Unit
  scanAndParse : Except String Unit
  saveParsed : Except String Unit
  deleteRepo : Except String Unit

/-- Observable outcome of one processed job: final record status and error,
whether the working-copy directory still exists, and the error rethrown to
the queue (none on success). -/
structure WorkerOutcome where
  status : JobStatus
  error : Option String
  workingCopyExists : Bool
  rethrown : Option String
deriving DecidableEq

/-- Outcome of the catch branch: the record is set to failed with the error
message and the error is rethrown; the catch branch does not touch the
working copy, so its existence flag is whatever the try block left. -/
def failedOutcome (msg : String) (workingCopy : Bool) : WorkerOutcome :=
  { status := JobStatus.failed, error := some msg,
    workingCopyExists := workingCopy, rethrown := some msg }

/-- AnalysisWorker.processAnalysisJob (the 6-step worker of the source):
status is set to processing, then URL parse, metadata fetch, clone (the
working copy exists from here on), tree build, tree save, scan-and-parse,
parsed save, working-copy delete, and finally status completed.  The first
failing step jumps to the catch branch, which marks the record failed and
rethrows without disposing of the working copy. -/
def processAnalysisJob (env : StepOutcomes) : WorkerOutcome :=
  if env.urlValid = false then failedOutcome "Invalid GitHub repository URL" false
  else
    match env.fetchMetadata with
    | .error e => failedOutcome e false
    | .ok _ =>
      match env.cloneRepo with
      | .error e => failedOutcome e false
      | .ok _ =>
        match env.buildTree with
        | .error e => failedOutcome e true
        | .ok _ =>
          match env.saveTree with
          | .error e => failedOutcome e true
          | .ok _ =>
            match env.scanAndParse with
            | .error e => failedOutcome e true
            | .ok _ =>
              match env.saveParsed with
              | .error e => failedOutcome e true
              | .ok _ =>
                match env.deleteRepo with
                | .error e => failedOutcome e true
                | .ok _ =>
                  { status := JobStatus.completed, error := none,
                    workingCopyExists := false, rethrown := none }

/-! ## Concrete fixtures used by the counterexamples and witnesses -/

/-- Build options as the worker passes them for a default analysis. -/
def optsDefault : BuildOptions :=
  { excludePatterns := none, maxFileSizeKB := some 1000, includeTests := some true }

/-- Metadata of a small TypeScript fixture file. -/
def mdTs : FileMetadata :=
  { language := "typescript", extension := ".ts", size := 120, linesOfCode := 10,
    isTest := false, isConfig := false }

/-- Metadata of a small JavaScript fixture file. -/
def mdJs : FileMetadata :=
  { language := "javascript", extension := ".js", size := 50, linesOfCode := 3,
    isTest := false, isConfig := false }

/-- Metadata of a small Python fixture file. -/
def mdPy : FileMetadata :=
  { language := "python", extension := ".py", size := 80, linesOfCode := 7,
    isTest := false, isConfig := false }

/-- The fixture working copy of the specification: files a.ts and b.py plus
a node_modules directory containing ignored.js. -/
def fixtureRepo : List FsEntry :=
  [FsEntry.file "a.ts" (some mdTs),
   FsEntry.dir "node_modules" [FsEntry.file "ignored.js" (some mdJs)],
   FsEntry.file "b.py" (some mdPy)]

/-- Parser options as passed by the worker (skip files above 500 KiB). -/
def parseOptsWorker : ParserOptions := { skipLargeFiles := true, maxFileSize := some 512000 }

/-- A TypeScript file that reads fine but whose parse throws a syntax error. -/
def tsSyntaxErrFile : ParseFileInput :=
  { path := "a.ts", statSize := .ok 100, readContent := .ok ("const x = ("),
    language := "typescript", parseOutcome := .error "SyntaxError" }

/-- A TypeScript file whose readFile throws. -/
def tsReadErrFile : ParseFileInput :=
  { path := "b.ts", statSize := .ok 10, readContent := .error "EACCES",
    language := "typescript", parseOutcome := .ok { imports := [], exports := [], functions := [], classes := [] } }

/-- A Python file with two top-level classes, the failing input of C7. -/
def pyTwoClasses : List String :=
  ["class A:", "    def a(self):", "        pass",
   "class B:", "    def b(self):", "        pass"]

/-- Job environment in which every step succeeds. -/
def envAllOk : StepOutcomes :=
  { urlValid := true, fetchMetadata := .ok (), cloneRepo := .ok (),
    buildTree := .ok (), saveTree := .ok (), scanAndParse := .ok (),
    saveParsed := .ok (), deleteRepo := .ok () }

/-- Job environment in which the tree build (after a successful clone)
throws. -/
def envBuildTreeFails : StepOutcomes :=
  { envAllOk with buildTree := .error "ENOMEM: tree build failed" }

/-! ## Order lemmas for the sibling comparator -/

theorem keyListCompare_swap (a : List Nat) :
    ∀ b, keyListCompare b a = (keyListCompare a b).swap := by
  induction a with
  | nil => intro b; cases b <;> rfl
  | cons x xs ih =>
    intro b
    cases b with
    | nil => rfl
    | cons y ys =>
      simp only [keyListCompare]
      by_cases hxy : x < y
      · have hyx : ¬ y < x := Nat.lt_asymm hxy
        simp [hxy, hyx, Ordering.swap]
      · by_cases hyx : y < x
        · simp [hxy, hyx, Ordering.swap]
        · simp [hxy, hyx, ih ys]

theorem keyListCompare_eq_iff (a : List Nat) :
    ∀ b, keyListCompare a b = .eq ↔ a = b := by
  induction a with
  | nil => intro b; cases b <;> simp [keyListCompare]
  | cons x xs ih =>
    intro b
    cases b with
    | nil => simp [keyListCompare]
    | cons y ys =>
      simp only [keyListCompare]
      by_cases hxy : x < y
      · simp only [if_pos hxy]
        constructor
        · intro h; cases h
        · rintro ⟨rfl⟩; exact absurd hxy (Nat.lt_irrefl x)
      · by_cases hyx : y < x
        · simp only [if_neg hxy, if_pos hyx]
          constructor
          · intro h; cases h
          · rintro ⟨rfl⟩; exact absurd hyx (Nat.lt_irrefl x)
        · have hxyeq : x = y := Nat.le_antisymm (Nat.le_of_not_lt hyx) (Nat.le_of_not_lt hxy)
          simp [hxy, hyx, ih ys, hxyeq]

theorem keyListCompare_lt_trans {a b c : List Nat} :
    keyListCompare a b = .lt → keyListCompare b c = .lt → keyListCompare a c = .lt := by
  induction a generalizing b c with
  | nil =>
    intro h1 h2
    cases b with
    | nil => exact h2
    | cons y ys =>
      cases c with
      | nil => cases h2
      | cons z zs => rfl
  | cons x xs ih =>
    intro h1 h2
    cases b with
    | nil => cases h1
    | cons y ys =>
      cases c with
      | nil => cases h2
      | cons z zs =>
        simp only [keyListCompare] at h1 h2 ⊢
        by_cases hxy : x < y
        · by_cases hyz : y < z
          · have hxz : x < z := Nat.lt_trans hxy hyz
            simp [hxz]
          · by_cases hzy : z < y
            · simp [hyz, hzy] at h2
            · have : y = z := Nat.le_antisymm (Nat.le_of_not_lt hzy) (Nat.le_of_not_lt hyz)
              subst this
              simp [hxy]
        · by_cases hyx : y < x
          · simp [hxy, hyx] at h1
          · have hxyeq : x = y := Nat.le_antisymm (Nat.le_of_not_lt hyx) (Nat.le_of_not_lt hxy)
            subst hxyeq
            simp only [if_neg hxy, if_neg hyx] at h1
            by_cases hyz : x < z
            · simp [hyz]
            · by_cases hzy : z < x
              · simp [hyz, hzy] at h2
              · simp only [if_neg hyz, if_neg hzy] at h2 ⊢
                exact ih h1 h2

theorem keyListCompare_ne_gt_trans {a b c : List Nat}
    (h1 : keyListCompare a b ≠ .gt) (h2 : keyListCompare b c ≠ .gt) :
    keyListCompare a c ≠ .gt := by
  cases hab : keyListCompare a b with
  | gt => exact absurd hab h1
  | eq =>
    rw [(keyListCompare_eq_iff a b).mp hab]
    exact h2
  | lt =>
    cases hbc : keyListCompare b c with
    | gt => exact absurd hbc h2
    | eq =>
      rw [← (keyListCompare_eq_iff b c).mp hbc]
      simp [hab]
    | lt => simp [keyListCompare_lt_trans hab hbc]

theorem collate_swap (a b : String) : collate b a = (collate a b).swap := by
  unfold collate
  rw [keyListCompare_swap, keyListCompare_swap (a.toList.map tertiaryKey)]
  cases keyListCompare (a.toList.map primaryKey) (b.toList.map primaryKey) <;>
    cases keyListCompare (a.toList.map tertiaryKey) (b.toList.map tertiaryKey) <;>
      rfl

theorem then_eq_of_eq (x : Ordering) : Ordering.eq.then x = x := rfl

theorem then_lt (x : Ordering) : Ordering.lt.then x = Ordering.lt := rfl

theorem then_gt (x : Ordering) : Ordering.gt.then x = Ordering.gt := rfl

theorem then_pair_ne_gt_trans {p1 p2 p3 t1 t2 t3 : List Nat}
    (h1 : (keyListCompare p1 p2).then (keyListCompare t1 t2) ≠ .gt)
    (h2 : (keyListCompare p2 p3).then (keyListCompare t2 t3) ≠ .gt) :
    (keyListCompare p1 p3).then (keyListCompare t1 t3) ≠ .gt := by
  cases hab : keyListCompare p1 p2 with
  | gt => rw [hab, then_gt] at h1; exact absurd rfl h1
  | lt =>
    cases hbc : keyListCompare p2 p3 with
    | gt => rw [hbc, then_gt] at h2; exact absurd rfl h2
    | lt =>
      rw [keyListCompare_lt_trans hab hbc, then_lt]
      intro h; cases h
    | eq =>
      rw [← (keyListCompare_eq_iff p2 p3).mp hbc, hab, then_lt]
      intro h; cases h
  | eq =>
    have hpeq := (keyListCompare_eq_iff p1 p2).mp hab
    rw [hab, then_eq_of_eq] at h1
    cases hbc : keyListCompare p2 p3 with
    | gt => rw [hbc, then_gt] at h2; exact absurd rfl h2
    | lt =>
      rw [hpeq, hbc, then_lt]
      intro h; cases h
    | eq =>
      rw [hbc, then_eq_of_eq] at h2
      rw [hpeq, ← (keyListCompare_eq_iff p2 p3).mp hbc]
      rw [(keyListCompare_eq_iff p2 p2).mpr rfl, then_eq_of_eq]
      exact keyListCompare_ne_gt_trans h1 h2

theorem collate_ne_gt_trans {a b c : String}
    (h1 : collate a b ≠ .gt) (h2 : collate b c ≠ .gt) : collate a c ≠ .gt := by
  unfold collate at h1 h2 ⊢
  exact then_pair_ne_gt_trans h1 h2

theorem localeCompare_nonpos_iff (a b : String) :
    localeCompare a b ≤ 0 ↔ collate a b ≠ .gt := by
  unfold localeCompare
  cases collate a b <;> simp

theorem localeCompare_total (a b : String) :
    localeCompare a b ≤ 0 ∨ localeCompare b a ≤ 0 := by
  rw [localeCompare_nonpos_iff, localeCompare_nonpos_iff, collate_swap a b]
  cases collate a b <;> simp [Ordering.swap]

theorem localeCompare_trans {a b c : String}
    (h1 : localeCompare a b ≤ 0) (h2 : localeCompare b c ≤ 0) :
    localeCompare a c ≤ 0 := by
  rw [localeCompare_nonpos_iff] at h1 h2 ⊢
  exact collate_ne_gt_trans h1 h2

theorem childLe_iff (a b : FileTreeNode) : childLe a b = true ↔ childCompare a b ≤ 0 := by
  unfold childLe
  exact decide_eq_true_iff

theorem childLe_total (a b : FileTreeNode) : childLe a b = true ∨ childLe b a = true := by
  rw [childLe_iff, childLe_iff]
  unfold childCompare
  by_cases h : a.type = b.type
  · rw [if_pos h, if_pos h.symm]
    exact localeCompare_total a.name b.name
  · have h2 : ¬ b.type = a.type := fun he => h he.symm
    rw [if_neg h, if_neg h2]
    cases ha : a.type
    · cases hb : b.type
      · exact absurd (ha.trans hb.symm) h
      · right
        simp [hb]
    · left
      simp [ha]

theorem childLe_trans {a b c : FileTreeNode}
    (h1 : childLe a b = true) (h2 : childLe b c = true) : childLe a c = true := by
  rw [childLe_iff] at h1 h2 ⊢
  unfold childCompare at h1 h2 ⊢
  cases ha : a.type <;> cases hb : b.type <;> cases hc : c.type <;>
    simp_all [localeCompare_trans, NodeType.file, NodeType.directory]
  · exact localeCompare_trans h1 h2
  · exact localeCompare_trans h1 h2

/-! ## Sortedness of the insertion model of Array.prototype.sort -/

theorem mem_insertBy {α : Type} (le : α → α → Bool) (x z : α) :
    ∀ l, z ∈ insertBy le x l ↔ z = x ∨ z ∈ l := by
  intro l
  induction l with
  | nil => simp [insertBy]
  | cons y ys ih =>
    simp only [insertBy]
    by_cases h : le x y = true
    · rw [if_pos h]
      simp [List.mem_cons]
    · rw [if_neg h]
      simp only [List.mem_cons, ih]
      tauto

theorem pairwise_insertBy {α : Type} {le : α → α → Bool}
    (total : ∀ a b, le a b = true ∨ le b a = true)
    (htrans : ∀ a b c, le a b = true → le b c = true → le a c = true)
    (x : α) :
    ∀ l, l.Pairwise (fun a b => le a b = true) →
      (insertBy le x l).Pairwise (fun a b => le a b = true) := by
  intro l
  induction l with
  | nil => intro _; simp [insertBy]
  | cons y ys ih =>
    intro hp
    rcases List.pairwise_cons.mp hp with ⟨hy, hys⟩
    simp only [insertBy]
    by_cases h : le x y = true
    · rw [if_pos h]
      refine List.pairwise_cons.mpr ⟨?_, hp⟩
      intro z hz
      rcases List.mem_cons.mp hz with rfl | hz2
      · exact h
      · exact htrans x y z h (hy z hz2)
    · rw [if_neg h]
      have hyx : le y x = true := (total x y).resolve_left h
      refine List.pairwise_cons.mpr ⟨?_, ih hys⟩
      intro z hz
      rcases (mem_insertBy le x z ys).mp hz with rfl | hz2
      · exact hyx
      · exact hy z hz2

theorem pairwise_sortBy {α : Type} {le : α → α → Bool}
    (total : ∀ a b, le a b = true ∨ le b a = true)
    (htrans : ∀ a b c, le a b = true → le b c = true → le a c = true) :
    ∀ l : List α, (sortBy le l).Pairwise (fun a b => le a b = true) := by
  intro l
  induction l with
  | nil => simp [sortBy]
  | cons x xs ih => exact pairwise_insertBy total htrans x (sortBy le xs) ih

theorem mem_sortBy {α : Type} (le : α → α → Bool) (z : α) :
    ∀ l, z ∈ sortBy le l ↔ z ∈ l := by
  intro l
  induction l with
  | nil => simp [sortBy]
  | cons x xs ih =>
    simp [sortBy, mem_insertBy, List.mem_cons, ih]

theorem childLe_siblingOrdered {a b : FileTreeNode}
    (h : childLe a b = true) : siblingOrdered a b := by
  rw [childLe_iff] at h
  unfold childCompare at h
  constructor
  · intro hfa
    by_cases hb : b.type = NodeType.file
    · exact hb
    · exfalso
      have hne : ¬ a.type = b.type := by
        rw [hfa]; exact fun he => hb he.symm
      rw [if_neg hne, if_neg (by rw [hfa]; exact fun h => nomatch h)] at h
      exact absurd h (by decide)
  · intro hty
    rw [if_pos hty] at h
    rw [localeCompare_nonpos_iff] at h
    unfold ciLe
    intro hgt
    apply h
    unfold collate
    rw [hgt]
    rfl

/-! ## Structural lemmas about the built tree -/

theorem buildChildren_sound {options : BuildOptions} {fuel : Nat} :
    ∀ (es : List FsEntry) (c : FileTreeNode),
      c ∈ es.foldr
        (fun entry acc =>
          match buildTreeRecursive options fuel entry with
          | none => acc
          | some childNode =>
            if keepChild options childNode then childNode :: acc else acc)
        [] →
      ∃ entry ∈ es, buildTreeRecursive options fuel entry = some c := by
  intro es
  induction es with
  | nil => intro c hc; simp at hc
  | cons e rest ih =>
    intro c hc
    simp only [List.foldr_cons] at hc
    cases hbe : buildTreeRecursive options fuel e with
    | none =>
      simp only [hbe] at hc
      rcases ih c hc with ⟨en, hen, hb⟩
      exact ⟨en, List.mem_cons_of_mem e hen, hb⟩
    | some cn =>
      simp only [hbe] at hc
      by_cases hk : keepChild options cn = true
      · rw [if_pos hk] at hc
        rcases List.mem_cons.mp hc with rfl | hc2
        · exact ⟨e, List.mem_cons_self e rest, hbe⟩
        · rcases ih c hc2 with ⟨en, hen, hb⟩
          exact ⟨en, List.mem_cons_of_mem e hen, hb⟩
      · rw [if_neg hk] at hc
        rcases ih c hc with ⟨en, hen, hb⟩
        exact ⟨en, List.mem_cons_of_mem e hen, hb⟩

theorem build_wellOrdered (options : BuildOptions) :
    ∀ (fuel : Nat) (e : FsEntry) (t : FileTreeNode),
      buildTreeRecursive options fuel e = some t → WellOrdered t := by
  intro fuel
  induction fuel with
  | zero => intro e t h; simp [buildTreeRecursive] at h
  | succ fuel ih =>
    intro e t h
    cases e with
    | broken nm => simp [buildTreeRecursive] at h
    | file nm md =>
      simp only [buildTreeRecursive, Option.some.injEq] at h
      subst h
      exact WellOrdered.mk (fun cs hcs => by cases hcs) (fun cs hcs => by cases hcs)
    | dir nm es =>
      simp only [buildTreeRecursive] at h
      by_cases hskip : shouldSkipDirectory nm = true
      · rw [if_pos hskip] at h
        injection h with h
        subst h
        exact WellOrdered.mk (fun cs hcs => by cases hcs) (fun cs hcs => by cases hcs)
      · rw [if_neg hskip] at h
        injection h with h
        subst h
        refine WellOrdered.mk ?_ ?_
        · intro cs hcs
          injection hcs with hcs
          subst hcs
          unfold ChildrenOrdered childrenSort
          exact List.Pairwise.imp (fun hab => childLe_siblingOrdered hab)
            (pairwise_sortBy childLe_total (fun a b c => childLe_trans) _)
        · intro cs hcs c hc
          injection hcs with hcs
          subst hcs
          unfold childrenSort at hc
          have hc2 := (mem_sortBy childLe c _).mp hc
          rcases buildChildren_sound es c hc2 with ⟨en, _, hb⟩
          exact ih en c hb

theorem inTree_eq_of_children_none {n t : FileTreeNode}
    (h : InTree n t) (hc : t.children = none) : n = t := by
  cases h with
  | refl => rfl
  | step hcs hm hsub => rw [hc] at hcs; cases hcs

theorem wellOrdered_of_inTree :
    ∀ {n t : FileTreeNode}, InTree n t → WellOrdered t → WellOrdered n := by
  intro n t h
  induction h with
  | refl => exact fun h => h
  | step hcs hm hsub ih =>
    intro hwo
    apply ih
    cases hwo with
    | mk hord hrec =>
      simp only [FileTreeNode.children] at hcs
      exact hrec _ hcs _ hm

theorem build_dir_skip_children {options : BuildOptions} {fuel : Nat}
    {nm : String} {es : List FsEntry} {t : FileTreeNode}
    (h : buildTreeRecursive options fuel (FsEntry.dir nm es) = some t)
    (hskip : shouldSkipDirectory nm = true) : t.children = none := by
  cases fuel with
  | zero => simp [buildTreeRecursive] at h
  | succ fuel =>
    simp only [buildTreeRecursive, if_pos hskip, Option.some.injEq] at h
    subst h
    rfl

theorem build_skip_childless (options : BuildOptions) :
    ∀ (fuel : Nat) (e : FsEntry) (t : FileTreeNode),
      buildTreeRecursive options fuel e = some t →
      ∀ n, InTree n t → n.type = NodeType.directory →
        shouldSkipDirectory n.name = true → n.children = none := by
  intro fuel
  induction fuel with
  | zero => intro e t h; simp [buildTreeRecursive] at h
  | succ fuel ih =>
    intro e t h n hin hdir hskipn
    cases e with
    | broken nm => simp [buildTreeRecursive] at h
    | file nm md =>
      simp only [buildTreeRecursive, Option.some.injEq] at h
      subst h
      rcases inTree_eq_of_children_none hin rfl with rfl
      rfl
    | dir nm es =>
      simp only [buildTreeRecursive] at h
      by_cases hskip : shouldSkipDirectory nm = true
      · rw [if_pos hskip] at h
        injection h with h
        subst h
        rcases inTree_eq_of_children_none hin rfl with rfl
        rfl
      · rw [if_neg hskip] at h
        injection h with h
        subst h
        cases hin with
        | refl => exact absurd hskipn hskip
        | step hcs hm hsub =>
          simp only [FileTreeNode.children, Option.some.injEq] at hcs
          subst hcs
          unfold childrenSort at hm
          have hm2 := (mem_sortBy childLe _ _).mp hm
          rcases buildChildren_sound es _ hm2 with ⟨en, _, hb⟩
          exact ih en _ hb n hsub hdir hskipn

/-- C6: in every tree returned by buildFileTree, the children list of every
directory node places all directory nodes before all file nodes and sorts
the names within each group case-insensitively in ascending order. -/
theorem c6_children_sorted :
    ∀ (options : BuildOptions) (fuel : Nat) (rootName : String)
      (entries : List FsEntry) (n : FileTreeNode) (cs : List FileTreeNode),
      InTree n (buildFileTree options fuel rootName entries) →
      n.children = some cs → ChildrenOrdered cs := by
  intro options fuel rootName entries n cs hin hcs
  have hroot : WellOrdered (buildFileTree options fuel rootName entries) := by
    unfold buildFileTree
    cases hb : buildTreeRecursive options fuel (FsEntry.dir rootName entries) with
    | none => exact WellOrdered.mk (fun cs hcs => by cases hcs) (fun cs hcs => by cases hcs)
    | some t =>
      cases t with
      | node nm ty md ocs =>
        have hwo := build_wellOrdered options fuel _ _ hb
        cases hwo with
        | mk hord hrec => exact WellOrdered.mk hord hrec
  have hn := wellOrdered_of_inTree hin hroot
  cases hn with
  | mk hord hrec => exact hord cs hcs

/-- C6 witness: the sorted sibling list of the fixture repository. -/
theorem c6_witness :
    ChildrenOrdered
      [FileTreeNode.node "node_modules" NodeType.directory none none,
       FileTreeNode.node "a.ts" NodeType.file (some mdTs) none,
       FileTreeNode.node "b.py" NodeType.file (some mdPy) none] :=
  c6_children_sorted optsDefault 5 "repo" fixtureRepo _ _ (InTree.refl _) rfl

/-- C3 counterexample: on the fixture working copy (files a.ts and b.py plus
node_modules containing ignored.js) the tree built by buildFileTree DOES
contain a node for the skip-listed directory node_modules, emitted as a
child of the root; the claim that skip-listed directories appear nowhere in
the resulting tree is false. -/
theorem c3_counterexample :
    ∃ n, InTree n (buildFileTree optsDefault 5 "repo" fixtureRepo) ∧
      n.type = NodeType.directory ∧ shouldSkipDirectory n.name = true := by
  refine ⟨FileTreeNode.node "node_modules" NodeType.directory none none, ?_, rfl, rfl⟩
  exact @InTree.step _ _ _
    [FileTreeNode.node "node_modules" NodeType.directory none none,
     FileTreeNode.node "a.ts" NodeType.file (some mdTs) none,
     FileTreeNode.node "b.py" NodeType.file (some mdPy) none]
    rfl (by simp) (InTree.refl _)

/-- C3 (amended): buildFileTree never descends into a skip-listed directory:
every skip-listed directory node anywhere in the built tree is childless (no
children field), so nothing beneath such a directory appears in the tree;
the directory itself however is emitted as a child node of its parent. -/
theorem c3_skip_not_descended :
    ∀ (options : BuildOptions) (fuel : Nat) (rootName : String)
      (entries : List FsEntry) (n : FileTreeNode),
      InTree n (buildFileTree options fuel rootName entries) →
      n.type = NodeType.directory → shouldSkipDirectory n.name = true →
      n.children = none := by
  intro options fuel rootName entries n hin hdir hskip
  unfold buildFileTree at hin
  cases hb : buildTreeRecursive options fuel (FsEntry.dir rootName entries) with
  | none =>
    rw [hb] at hin
    rcases inTree_eq_of_children_none hin rfl with rfl
    rfl
  | some t =>
    rw [hb] at hin
    cases hin with
    | refl =>
      show t.children = none
      exact build_dir_skip_children hb hskip
    | step hcs hm hsub =>
      have hcs2 : t.children = some _ := hcs
      exact build_skip_childless options fuel _ t hb n
        (InTree.step hcs2 hm hsub) hdir hskip

/-- C3 witness: in the fixture tree the node_modules node is childless. -/
theorem c3_witness :
    (FileTreeNode.node "node_modules" NodeType.directory none none).children = none :=
  c3_skip_not_descended optsDefault 5 "repo" fixtureRepo
    (FileTreeNode.node "node_modules" NodeType.directory none none)
    (@InTree.step _ _ _
      [FileTreeNode.node "node_modules" NodeType.directory none none,
       FileTreeNode.node "a.ts" NodeType.file (some mdTs) none,
       FileTreeNode.node "b.py" NodeType.file (some mdPy) none]
      rfl (by simp) (InTree.refl _))
    rfl rfl

/-! ## Metrics lemmas (C2) -/

theorem foldl_traverse_avg (fuel : Nat)
    (ih : ∀ tree s, (traverseAndCount fuel tree s).sizeBreakdown.averageFileSize =
      s.sizeBreakdown.averageFileSize) :
    ∀ (cs : List FileTreeNode) (s : FileTreeStatistics),
      (cs.foldl (fun s c => traverseAndCount fuel c s) s).sizeBreakdown.averageFileSize =
        s.sizeBreakdown.averageFileSize := by
  intro cs
  induction cs with
  | nil => intro s; rfl
  | cons c rest ihc => intro s; rw [List.foldl_cons, ihc, ih]

theorem traverseAndCount_avg :
    ∀ (fuel : Nat) (tree : FileTreeNode) (s : FileTreeStatistics),
      (traverseAndCount fuel tree s).sizeBreakdown.averageFileSize =
        s.sizeBreakdown.averageFileSize := by
  intro fuel
  induction fuel with
  | zero => intro tree s; rfl
  | succ fuel ih =>
    intro tree s
    cases tree with
    | node nm ty md ocs =>
      cases ty with
      | directory =>
        cases ocs with
        | none => rfl
        | some cs =>
          simp only [traverseAndCount]
          rw [foldl_traverse_avg fuel ih]
      | file =>
        cases md with
        | none => rfl
        | some m => rfl

/-- C2: with zero file nodes, calculateMetrics leaves averageFileSize at its
initial 0 (the division is guarded by totalFiles greater than 0); the
GET /analysis/:id/tree handler however recomputes averageFileSize as
Math.round(totalSize / totalFiles) without a guard, so at totalFiles = 0 the
JS division yields a non-finite number (NaN, serialized as null) instead of
the 0 the specification requires. -/
theorem c2_average_file_size :
    (∀ (fuel : Nat) (tree : FileTreeNode),
      (traverseAndCount fuel tree initialStats).totalFiles = 0 →
      (calculateMetrics fuel tree).sizeBreakdown.averageFileSize = 0) ∧
    routeAverageFileSize 0 0 = none := by
  constructor
  · intro fuel tree h
    have h0 : ¬ (traverseAndCount fuel tree initialStats).totalFiles > 0 := by
      rw [h]; exact Nat.lt_irrefl 0
    simp only [calculateMetrics, if_neg h0]
    rw [traverseAndCount_avg]
    rfl
  · rfl

/-- C2 witness: the empty-repository tree (root with empty children). -/
theorem c2_witness :
    (calculateMetrics 1 (FileTreeNode.node "root" NodeType.directory none
      (some []))).sizeBreakdown.averageFileSize = 0 ∧
    routeAverageFileSize 0 0 = none :=
  ⟨c2_average_file_size.1 1 (FileTreeNode.node "root" NodeType.directory none (some [])) rfl,
   c2_average_file_size.2⟩

/-! ## Line counting lemmas (C4) -/

theorem splitNl_length : ∀ l : List Char, (splitNl l).length = l.count '\n' + 1 := by
  intro l
  induction l with
  | nil => rfl
  | cons c rest ih =>
    simp only [splitNl]
    by_cases hc : c = '\n'
    · subst hc
      rw [if_pos rfl]
      simp only [List.length_cons, List.count_cons, ih]
      simp
    · rw [if_neg hc]
      cases hs : splitNl rest with
      | nil =>
        exfalso
        have h2 := ih
        rw [hs] at h2
        simp at h2
      | cons s ss =>
        have h2 := ih
        rw [hs] at h2
        simp only [List.length_cons] at h2 ⊢
        rw [List.count_cons]
        simp only [beq_iff_eq, hc, if_false]
        omega

/-- C4 counterexample: a file with empty content yields linesOfCode 1, not
the 0 the claim states (a split of the empty string has one element). -/
theorem c4_counterexample : countLines (some "") ≠ 0 ∧ countLines (some "") = 1 :=
  ⟨by decide, rfl⟩

/-- C4 (amended): for every successfully read content the computed
linesOfCode equals the count of newline separators plus one (so empty
content yields 1), and a read error yields zero. -/
theorem c4_lines_eq_separators_succ :
    (∀ content : String, countLines (some content) = content.toList.count '\n' + 1) ∧
    countLines none = 0 := by
  refine ⟨fun content => ?_, rfl⟩
  unfold countLines
  exact splitNl_length content.toList

/-! ## Parser pipeline lemmas (C5) -/

theorem routeAndCatch_error {f : ParseFileInput} {e : String}
    (h : languageParserParseFile f.language f = .error e) :
    routeAndCatch f = .ok none := by
  unfold routeAndCatch
  by_cases hsup : isSupportedForParsing f.language = true
  · rw [if_pos hsup, h]
  · rw [if_neg hsup]

theorem routeAndCatch_ok (f : ParseFileInput) : ∃ r, routeAndCatch f = .ok r := by
  unfold routeAndCatch
  by_cases hsup : isSupportedForParsing f.language = true
  · rw [if_pos hsup]
    cases hlp : languageParserParseFile f.language f with
    | ok pf => exact ⟨some pf, rfl⟩
    | error e => exact ⟨none, rfl⟩
  · rw [if_neg hsup]; exact ⟨none, rfl⟩

theorem parseFile_eq_route_or_none (options : ParserOptions) (f : ParseFileInput) :
    ParserService.parseFile options f = routeAndCatch f ∨
      ParserService.parseFile options f = .ok none := by
  unfold ParserService.parseFile
  by_cases hs : options.skipLargeFiles = true
  · rw [if_pos hs]
    cases hst : f.statSize with
    | error e => right; rfl
    | ok size =>
      by_cases hsz : size > jsOrNat options.maxFileSize 1048576
      · right
        show (if size > jsOrNat options.maxFileSize 1048576 then
            (Except.ok none : Except String (Option ParsedFile))
          else routeAndCatch f) = Except.ok none
        rw [if_pos hsz]
      · left
        show (if size > jsOrNat options.maxFileSize 1048576 then
            (Except.ok none : Except String (Option ParsedFile))
          else routeAndCatch f) = routeAndCatch f
        rw [if_neg hsz]
  · rw [if_neg hs]; left; rfl

theorem parseFile_ok (options : ParserOptions) (f : ParseFileInput) :
    ∃ r, ParserService.parseFile options f = .ok r := by
  rcases parseFile_eq_route_or_none options f with h | h
  · rw [h]; exact routeAndCatch_ok f
  · exact ⟨none, h⟩

theorem promiseAll_ok {A B : Type} (g : A → Except String B)
    (hg : ∀ a, ∃ b, g a = .ok b) : ∀ l, ∃ bs, promiseAll g l = .ok bs := by
  intro l
  induction l with
  | nil => exact ⟨[], rfl⟩
  | cons a as ih =>
    rcases hg a with ⟨b, hb⟩
    rcases ih with ⟨bs, hbs⟩
    exact ⟨b :: bs, by simp [promiseAll, hb, hbs]⟩

/-- C5 counterexample: a TypeScript file that reads fine but whose parse
throws a syntax error is NOT omitted: the batch output passed to
persistence contains a ParsedFile entry for its path, with empty
substructures. -/
theorem c5_counterexample :
    tsSyntaxErrFile.parseOutcome = Except.error "SyntaxError" ∧
    parseFilesParallel parseOptsWorker [tsSyntaxErrFile] =
      .ok [emptyParsed "a.ts" "typescript"] ∧
    (emptyParsed "a.ts" "typescript").path = tsSyntaxErrFile.path :=
  ⟨rfl, rfl, rfl⟩

/-- C5 (amended): every exception is caught, so the batch never fails: the
parallel parse always resolves; a file whose read throws (the exception
escaping the language parser) is dropped as null; but an exception raised
inside the language parser (a parse or extraction error) produces a
ParsedFile with empty substructures that is either size-skipped or INCLUDED
in the output. -/
theorem c5_exceptions_caught :
    ∀ (options : ParserOptions) (f : ParseFileInput) (files : List ParseFileInput),
      (∃ rs, parseFilesParallel options files = .ok rs) ∧
      (∀ e, f.readContent = .error e → ParserService.parseFile options f = .ok none) ∧
      (∀ content e r, f.readContent = .ok content → f.parseOutcome = .error e →
        ParserService.parseFile options f = .ok r →
        r = none ∨ r = some (emptyParsed f.path f.language)) := by
  intro options f files
  refine ⟨?_, ?_, ?_⟩
  · rcases promiseAll_ok (ParserService.parseFile options)
      (fun a => parseFile_ok options a) files with ⟨rs, hrs⟩
    exact ⟨rs.filterMap id, by simp [parseFilesParallel, hrs]⟩
  · intro e he
    have hlp : languageParserParseFile f.language f = .error e := by
      unfold languageParserParseFile; rw [he]
    rcases parseFile_eq_route_or_none options f with h | h
    · rw [h]; exact routeAndCatch_error hlp
    · exact h
  · intro content e r hco hpo hr
    have hlp : languageParserParseFile f.language f =
        .ok (emptyParsed f.path f.language) := by
      unfold languageParserParseFile; rw [hco, hpo]
    have hroute : routeAndCatch f = .ok (some (emptyParsed f.path f.language)) ∨
        routeAndCatch f = .ok none := by
      unfold routeAndCatch
      by_cases hsup : isSupportedForParsing f.language = true
      · rw [if_pos hsup, hlp]; left; rfl
      · rw [if_neg hsup]; right; rfl
    rcases parseFile_eq_route_or_none options f with hpf | hpf
    · rw [hpf] at hr
      rcases hroute with h2 | h2
      · rw [h2] at hr
        injection hr with hr
        right; exact hr.symm
      · rw [h2] at hr
        injection hr with hr
        left; exact hr.symm
    · rw [hpf] at hr
      injection hr with hr
      left; exact hr.symm

/-- C5 witness: a file whose read throws is omitted, and the batch resolves. -/
theorem c5_witness :
    ParserService.parseFile parseOptsWorker tsReadErrFile = .ok none ∧
    (∃ rs, parseFilesParallel parseOptsWorker [tsReadErrFile] = .ok rs) :=
  ⟨(c5_exceptions_caught parseOptsWorker tsReadErrFile [tsReadErrFile]).2.1 "EACCES" rfl,
   (c5_exceptions_caught parseOptsWorker tsReadErrFile [tsReadErrFile]).1⟩

/-! ## Python method attribution (C7) -/

/-- C7: on a file with two top-level classes the alien-method guard of
extractMethodsFromClass never fires (it looks for the next class header
strictly after the method and then asks whether it lies before the method),
so every indented def after a class header is attributed to that class: the
method b declared under class B (line 5) also appears in the methods of
class A, which the claim forbids. -/
theorem c7_method_attribution :
    extractClasses pyTwoClasses =
      [{ name := "A", line := 1, methods :=
          [{ name := "a", isAsync := false, line := 2, modifiers := [] },
           { name := "b", isAsync := false, line := 5, modifiers := [] }] },
       { name := "B", line := 4, methods :=
          [{ name := "b", isAsync := false, line := 5, modifiers := [] }] }] ∧
    ∃ cls ∈ extractClasses pyTwoClasses, cls.name = "A" ∧
      ∃ m ∈ cls.methods, m.name = "b" ∧ m.line = 5 := by
  constructor
  · rfl
  · exact ⟨{ name := "A", line := 1, methods :=
        [{ name := "a", isAsync := false, line := 2, modifiers := [] },
         { name := "b", isAsync := false, line := 5, modifiers := [] }] },
      by rw [(by rfl : extractClasses pyTwoClasses =
        [{ name := "A", line := 1, methods :=
            [{ name := "a", isAsync := false, line := 2, modifiers := [] },
             { name := "b", isAsync := false, line := 5, modifiers := [] }] },
         { name := "B", line := 4, methods :=
            [{ name := "b", isAsync := false, line := 5, modifiers := [] }] }])]
         simp,
      rfl,
      { name := "b", isAsync := false, line := 5, modifiers := [] },
      by simp,
      rfl, rfl⟩

/-! ## updateStatus timestamps (C8) -/

theorem updateStatus_status (now : Nat) (r : AnalysisRecord) (s : JobStatus)
    (err : Option String) : (updateStatus now r s err).status = s := by
  simp only [updateStatus]
  split_ifs <;> rfl

theorem updateStatus_completedAt (now : Nat) (r : AnalysisRecord) (s : JobStatus)
    (err : Option String) :
    (updateStatus now r s err).completedAt =
      if s = JobStatus.completed ∨ s = JobStatus.failed then some now
      else r.completedAt := by
  simp only [updateStatus]
  split_ifs with h1 h2 h3 <;> simp_all

theorem updateStatus_startedAt (now : Nat) (r : AnalysisRecord) (s : JobStatus)
    (err : Option String) :
    (updateStatus now r s err).startedAt =
      if s = JobStatus.processing ∧ errTruthy err = false then some now
      else r.startedAt := by
  simp only [updateStatus]
  split_ifs with h1 h2 h3 <;> simp_all

theorem runUpdates_completedAt :
    ∀ (cmds : List (JobStatus × Option String)) (r : AnalysisRecord) (now : Nat),
      (runUpdates r now cmds).completedAt ≠ none ↔
        (r.completedAt ≠ none ∨
          ∃ c ∈ cmds, c.1 = JobStatus.completed ∨ c.1 = JobStatus.failed) := by
  intro cmds
  induction cmds with
  | nil => intro r now; simp [runUpdates]
  | cons c cs ih =>
    intro r now
    simp only [runUpdates]
    rw [ih, updateStatus_completedAt]
    by_cases hterm : c.1 = JobStatus.completed ∨ c.1 = JobStatus.failed
    · rw [if_pos hterm]
      constructor
      · intro _; right; exact ⟨c, by simp, hterm⟩
      · intro _; left; simp
    · rw [if_neg hterm]
      simp only [List.mem_cons]
      constructor
      · rintro (h | ⟨c2, hc2, hh⟩)
        · left; exact h
        · right; exact ⟨c2, Or.inr hc2, hh⟩
      · rintro (h | ⟨c2, (rfl | hc2), hh⟩)
        · left; exact h
        · exact absurd hh hterm
        · right; exact ⟨c2, hc2, hh⟩

theorem runUpdates_startedAt :
    ∀ (cmds : List (JobStatus × Option String)) (r : AnalysisRecord) (now : Nat),
      (runUpdates r now cmds).startedAt ≠ none ↔
        (r.startedAt ≠ none ∨
          ∃ c ∈ cmds, c.1 = JobStatus.processing ∧ errTruthy c.2 = false) := by
  intro cmds
  induction cmds with
  | nil => intro r now; simp [runUpdates]
  | cons c cs ih =>
    intro r now
    simp only [runUpdates]
    rw [ih, updateStatus_startedAt]
    by_cases hstart : c.1 = JobStatus.processing ∧ errTruthy c.2 = false
    · rw [if_pos hstart]
      constructor
      · intro _; right; exact ⟨c, by simp, hstart⟩
      · intro _; left; simp
    · rw [if_neg hstart]
      simp only [List.mem_cons]
      constructor
      · rintro (h | ⟨c2, hc2, hh⟩)
        · left; exact h
        · right; exact ⟨c2, Or.inr hc2, hh⟩
      · rintro (h | ⟨c2, (rfl | hc2), hh⟩)
        · left; exact h
        · exact absurd hh hstart
        · right; exact ⟨c2, hc2, hh⟩

theorem runUpdates_terminal_completedAt :
    ∀ (cmds : List (JobStatus × Option String)) (r : AnalysisRecord) (now : Nat),
      ((r.status = JobStatus.completed ∨ r.status = JobStatus.failed) →
        r.completedAt ≠ none) →
      ((runUpdates r now cmds).status = JobStatus.completed ∨
        (runUpdates r now cmds).status = JobStatus.failed) →
      (runUpdates r now cmds).completedAt ≠ none := by
  intro cmds
  induction cmds with
  | nil => intro r now hinv; exact hinv
  | cons c cs ih =>
    intro r now hinv
    simp only [runUpdates]
    apply ih
    intro hterm
    rw [updateStatus_status] at hterm
    rw [updateStatus_completedAt, if_pos hterm]
    simp

/-- C8 counterexample: the trace processing, failed, processing (a failed
attempt followed by the retry re-entering processing) leaves the record
with status processing while completedAt is still set: completedAt being
non-null does not imply a terminal status, because updateStatus never
clears completedAt. -/
theorem c8_counterexample :
    (processTrace [(JobStatus.processing, none), (JobStatus.failed, some "boom"),
      (JobStatus.processing, none)]).status = JobStatus.processing ∧
    (processTrace [(JobStatus.processing, none), (JobStatus.failed, some "boom"),
      (JobStatus.processing, none)]).completedAt ≠ none :=
  ⟨rfl, by decide⟩

/-- C8 (amended): over every updateStatus call trace from a fresh record,
a terminal final status implies completedAt is set; completedAt is set iff
some call set status completed or failed; and startedAt is set iff some
call set status processing without a truthy error argument.  The converse
direction of the claimed completedAt iff (non-null only if currently
terminal) fails, because nothing is ever cleared (see the counterexample). -/
theorem c8_timestamp_discipline :
    ∀ cmds : List (JobStatus × Option String),
      (((processTrace cmds).status = JobStatus.completed ∨
        (processTrace cmds).status = JobStatus.failed) →
        (processTrace cmds).completedAt ≠ none) ∧
      ((processTrace cmds).completedAt ≠ none ↔
        ∃ c ∈ cmds, c.1 = JobStatus.completed ∨ c.1 = JobStatus.failed) ∧
      ((processTrace cmds).startedAt ≠ none ↔
        ∃ c ∈ cmds, c.1 = JobStatus.processing ∧ errTruthy c.2 = false) := by
  intro cmds
  refine ⟨?_, ?_, ?_⟩
  · exact runUpdates_terminal_completedAt cmds initialRecord 1
      (fun h => by rcases h with h | h <;> cases h)
  · show (runUpdates initialRecord 1 cmds).completedAt ≠ none ↔ _
    rw [runUpdates_completedAt]
    simp [initialRecord]
  · show (runUpdates initialRecord 1 cmds).startedAt ≠ none ↔ _
    rw [runUpdates_startedAt]
    simp [initialRecord]

/-- C8 witness: a processing-then-completed trace has completedAt set. -/
theorem c8_witness :
    (processTrace [(JobStatus.processing, none),
      (JobStatus.completed, none)]).completedAt ≠ none :=
  (c8_timestamp_discipline [(JobStatus.processing, none),
    (JobStatus.completed, none)]).1 (Or.inl rfl)

/-! ## saveParsedFiles idempotence (C9) -/

theorem sameKey_refl (row : ParsedFileRow) : sameKey row row = true := by
  simp [sameKey]

theorem createMany_any_mono :
    ∀ (rows t : List ParsedFileRow) (row : ParsedFileRow),
      t.any (fun r => sameKey r row) = true →
      (createManySkipDuplicates t rows).any (fun r => sameKey r row) = true := by
  intro rows
  induction rows with
  | nil => intro t row h; exact h
  | cons q qs ih =>
    intro t row h
    by_cases hq : t.any (fun r => sameKey r q) = true
    · have hstep : createManySkipDuplicates t (q :: qs) = createManySkipDuplicates t qs := by
        simp only [createManySkipDuplicates, List.foldl_cons, if_pos hq]
      rw [hstep]
      exact ih t row h
    · have hstep : createManySkipDuplicates t (q :: qs) =
          createManySkipDuplicates (t ++ [q]) qs := by
        simp only [createManySkipDuplicates, List.foldl_cons, if_neg hq]
      rw [hstep]
      exact ih (t ++ [q]) row (by simp [List.any_append, h])

theorem createMany_mem_hasKey :
    ∀ (rows t : List ParsedFileRow) (row : ParsedFileRow), row ∈ rows →
      (createManySkipDuplicates t rows).any (fun r => sameKey r row) = true := by
  intro rows
  induction rows with
  | nil => intro t row h; simp at h
  | cons q qs ih =>
    intro t row h
    rcases List.mem_cons.mp h with rfl | h2
    · by_cases hq : t.any (fun r => sameKey r row) = true
      · have hstep : createManySkipDuplicates t (row :: qs) = createManySkipDuplicates t qs := by
          simp only [createManySkipDuplicates, List.foldl_cons, if_pos hq]
        rw [hstep]
        exact createMany_any_mono qs t row hq
      · have hstep : createManySkipDuplicates t (row :: qs) =
            createManySkipDuplicates (t ++ [row]) qs := by
          simp only [createManySkipDuplicates, List.foldl_cons, if_neg hq]
        rw [hstep]
        exact createMany_any_mono qs (t ++ [row]) row
          (by simp [List.any_append, sameKey_refl])
    · by_cases hq : t.any (fun r => sameKey r q) = true
      · have hstep : createManySkipDuplicates t (q :: qs) = createManySkipDuplicates t qs := by
          simp only [createManySkipDuplicates, List.foldl_cons, if_pos hq]
        rw [hstep]
        exact ih t row h2
      · have hstep : createManySkipDuplicates t (q :: qs) =
            createManySkipDuplicates (t ++ [q]) qs := by
          simp only [createManySkipDuplicates, List.foldl_cons, if_neg hq]
        rw [hstep]
        exact ih (t ++ [q]) row h2

theorem createMany_noop :
    ∀ (rows t : List ParsedFileRow),
      (∀ row ∈ rows, t.any (fun r => sameKey r row) = true) →
      createManySkipDuplicates t rows = t := by
  intro rows
  induction rows with
  | nil => intro t _; rfl
  | cons q qs ih =>
    intro t h
    have hq := h q (by simp)
    have hstep : createManySkipDuplicates t (q :: qs) = createManySkipDuplicates t qs := by
      simp only [createManySkipDuplicates, List.foldl_cons, if_pos hq]
    rw [hstep]
    exact ih t (fun row hr => h row (by simp [hr]))

/-- C9: saveParsedFiles is idempotent on the (analysisId, filePath) key: a
second identical save leaves the stored rows exactly as after the first. -/
theorem c9_idempotent :
    ∀ (table : List ParsedFileRow) (analysisId : String) (files : List ParsedFile),
      saveParsedFiles (saveParsedFiles table analysisId files) analysisId files =
        saveParsedFiles table analysisId files := by
  intro table analysisId files
  unfold saveParsedFiles
  apply createMany_noop
  intro row hrow
  exact createMany_mem_hasKey _ table row hrow

/-! ## GET /analyses error swallowing (C10) -/

/-- C10: AnalysisRepository.list never propagates a storage error: a failed
query yields the empty list with total 0, and the GET /analyses handler
responds 200 (with an empty page on a failed query), never an error
status. -/
theorem c10_list_errors_swallowed :
    ∀ (limitParam offsetParam : Option Nat) (e : String)
      (q : Except String (List AnalysisListItem × Nat)),
      listAnalyses (Except.error e) = ([], 0) ∧
      (getAnalysesHandler limitParam offsetParam (Except.error e)).httpStatus = 200 ∧
      (getAnalysesHandler limitParam offsetParam (Except.error e)).analyses = [] ∧
      (getAnalysesHandler limitParam offsetParam (Except.error e)).total = 0 ∧
      (getAnalysesHandler limitParam offsetParam q).httpStatus = 200 := by
  intro lp op e q
  exact ⟨rfl, rfl, rfl, rfl, rfl⟩

/-! ## Worker working-copy lifecycle (C1) -/

/-- C1 counterexample: a job whose tree build throws after a successful
clone reaches the terminal failed status with the working-copy directory
still in place: the catch branch of processAnalysisJob marks the record
failed and rethrows without disposing of the working copy. -/
theorem c1_counterexample :
    (processAnalysisJob envBuildTreeFails).status = JobStatus.failed ∧
    (processAnalysisJob envBuildTreeFails).workingCopyExists = true :=
  ⟨rfl, rfl⟩

/-- C1 (amended): on the success path the working copy is disposed before
the record is marked completed, so every job that ends completed leaves no
working-copy directory; on an exception after the clone the catch branch
disposes nothing and the directory survives the failed transition. -/
theorem c1_success_disposes :
    ∀ env : StepOutcomes,
      (processAnalysisJob env).status = JobStatus.completed →
      (processAnalysisJob env).workingCopyExists = false := by
  intro env h
  unfold processAnalysisJob at h ⊢
  by_cases hu : env.urlValid = false
  · rw [if_pos hu] at h
    simp [failedOutcome] at h
  · rw [if_neg hu] at h ⊢
    cases hf : env.fetchMetadata with
    | error e => simp only [hf] at h; simp [failedOutcome] at h
    | ok u =>
      simp only [hf] at h ⊢
      cases hc : env.cloneRepo with
      | error e => simp only [hc] at h; simp [failedOutcome] at h
      | ok u =>
        simp only [hc] at h ⊢
        cases hb : env.buildTree with
        | error e => simp only [hb] at h; simp [failedOutcome] at h
        | ok u =>
          simp only [hb] at h ⊢
          cases hs : env.saveTree with
          | error e => simp only [hs] at h; simp [failedOutcome] at h
          | ok u =>
            simp only [hs] at h ⊢
            cases hp : env.scanAndParse with
            | error e => simp only [hp] at h; simp [failedOutcome] at h
            | ok u =>
              simp only [hp] at h ⊢
              cases hsp : env.saveParsed with
              | error e => simp only [hsp] at h; simp [failedOutcome] at h
              | ok u =>
                simp only [hsp] at h ⊢
                cases hd : env.deleteRepo with
                | error e => simp only [hd] at h; simp [failedOutcome] at h
                | ok u => simp only [hd]

/-- C1 witness: the all-successful job ends completed with no working copy. -/
theorem c1_witness :
    (processAnalysisJob envAllOk).workingCopyExists = false :=
  c1_success_disposes envAllOk rfl

end Lighthouse
